import Mathlib

/-!
Verification of the wishuponablock falling-block engine.

The definitions below are a shallow embedding of the Python sources
(`tetris.py`, `og_tetris.py`, `assets.py`).  Colours are RGB triples of
naturals, grids are lists of rows of colours, and the dictionary of locked
cells is an association list keyed by `(x, y)` board coordinates, exactly
mirroring the Python data layout.  Coordinates are integers because pieces
legally occupy negative rows while spawning.
-/

set_option maxRecDepth 4000

/-- RGB colour triple, as used throughout the Python sources. -/
abbrev Color := Nat × Nat × Nat

/-- Constant `GRID_COLOUR` (alias `PLAY_COLOUR` in og_tetris.py): the background (empty-cell) colour
`(30, 30, 30)` shared by both game variants. -/
def GRID_COLOUR : Color := (30, 30, 30)

/-- The seven tetromino kinds. -/
inductive Kind
  | S | Z | I | O | J | L | T
deriving DecidableEq

/-- One entry of the `shapes` dictionary in `assets.py`: the list of
rotation states (each a list of mask rows) and the display colour. -/
structure ShapeDef where
  rotations : List (List String)
  colour : Color
deriving DecidableEq

/-- The `shapes` dictionary of `assets.py`, transcribed verbatim.  Note
that rotation state 1 of both `L` and `T` begins with the two-character
row ".0" exactly as in the source. -/
def shapes : Kind → ShapeDef
  | .S =>
    { rotations :=
        [ [".00", "00.", "..."],
          [".0.", ".00", "..0"],
          ["...", ".00", "00."],
          ["0..", "00.", ".0."] ],
      colour := (0, 244, 0) }
  | .Z =>
    { rotations :=
        [ ["00.", ".00", "..."],
          ["..0", ".00", ".0."],
          ["...", "00.", ".00"],
          [".0.", "00.", "0.."] ],
      colour := (255, 0, 0) }
  | .I =>
    { rotations :=
        [ ["....", "0000", "....", "...."],
          ["..0.", "..0.", "..0.", "..0."],
          ["....", "....", "0000", "...."],
          [".0..", ".0..", ".0..", ".0.."] ],
      colour := (0, 244, 242) }
  | .O =>
    { rotations :=
        [ [".00.", ".00.", "....", "...."],
          [".00.", ".00.", "....", "...."],
          [".00.", ".00.", "....", "...."],
          [".00.", ".00.", "....", "...."] ],
      colour := (240, 240, 0) }
  | .J =>
    { rotations :=
        [ ["0..", "000", "..."],
          [".00", ".0.", ".0."],
          ["...", "000", "..0"],
          [".0.", ".0.", "00."] ],
      colour := (0, 0, 250) }
  | .L =>
    { rotations :=
        [ ["..0", "000", "..."],
          [".0", ".0.", ".00"],
          ["...", "000", "0.."],
          ["00.", ".0.", ".0."] ],
      colour := (254, 155, 0) }
  | .T =>
    { rotations :=
        [ [".0.", "000", "..."],
          [".0", ".00", ".0."],
          ["...", "000", ".0."],
          [".0.", "00.", ".0."] ],
      colour := (175, 0, 249) }

/-- The `Piece` class of `tetris.py`: anchor `(x, y)`, the rotation list
taken from the shape catalog, a colour, and a (signed, later reduced
mod 4) rotation index. -/
structure Piece where
  x : Int
  y : Int
  shape : List (List String)
  color : Color
  rotation : Int
deriving DecidableEq

/-- Function `convert_shape_format` (tetris.py lines 57-70): collect the board
coordinate of every mask cell equal to the character zero in the current
rotation state, then translate everything by `(-2, -4)`.  The rotation
index is reduced modulo the number of rotation states, as in Python
(Euclidean `%` agrees with Python `%` for a positive modulus; the shape
list always has length 4 in the program, so the modulus is never 0). -/
def convert_shape_format (p : Piece) : List (Int × Int) :=
  let format := p.shape.getD (p.rotation % (p.shape.length : Int)).toNat []
  let positions := format.enum.flatMap (fun il =>
    il.2.toList.enum.filterMap (fun jc =>
      if jc.2 = '0' then some (p.x + (jc.1 : Int), p.y + (il.1 : Int)) else none))
  positions.map (fun pos => (pos.1 - 2, pos.2 - 4))

/-- The `accepted_pos` list built at the top of `valid_space`
(tetris.py lines 74-76): every in-range coordinate whose grid cell holds
the background colour, flattened row by row. -/
def accepted_pos (grid : List (List Color)) : List (Int × Int) :=
  ((List.range 20).map (fun i =>
    ((List.range 10).filter (fun j =>
        decide ((grid.getD i []).getD j (0, 0, 0) = GRID_COLOUR))).map
      (fun j => (Int.ofNat j, Int.ofNat i)))).flatten

/-- Function `valid_space` (tetris.py lines 73-84): a placement is rejected as
soon as some mask cell is outside the accepted list while lying on a row
with index greater than `-1`. -/
def valid_space (p : Piece) (grid : List (List Color)) : Bool :=
  (convert_shape_format p).all (fun pos =>
    decide (pos ∈ accepted_pos grid) || decide (pos.2 ≤ -1))

/-- Function `create_grid` (tetris.py lines 46-54): a 20 × 10 grid of background
colour, overwritten at every coordinate present in the locked-cell
dictionary. -/
def create_grid (locked : List ((Int × Int) × Color)) : List (List Color) :=
  (List.range 20).map (fun i =>
    (List.range 10).map (fun j =>
      match locked.lookup (Int.ofNat j, Int.ofNat i) with
      | some c => c
      | none => GRID_COLOUR))

/-- Function `check_lost` (tetris.py lines 87-93): the game is lost as soon as a
locked cell sits on a row with index below 1. -/
def check_lost (positions : List ((Int × Int) × Color)) : Bool :=
  (positions.map Prod.fst).any (fun pos => decide (pos.2 < 1))

/-- The discrete player intents handled by the `KEYDOWN` branch of
`main` (tetris.py lines 318-344).  Hard drop only alters the fall speed,
not the piece, so it is not listed here. -/
inductive Intent
  | left | right | down | rotCW | rotCCW | rot180
deriving DecidableEq

/-- The tentative mutation each intent first applies to the piece
(tetris.py lines 318-344): the anchor or rotation is changed before any
check runs. -/
def attempted : Intent → Piece → Piece
  | .left, p => { p with x := p.x - 1 }
  | .right, p => { p with x := p.x + 1 }
  | .down, p => { p with y := p.y + 1 }
  | .rotCW, p => { p with rotation := p.rotation + 1 }
  | .rotCCW, p => { p with rotation := p.rotation - 1 }
  | .rot180, p => { p with rotation := p.rotation - (p.shape.length : Int) / 2 }

/-- The compensating mutation the handler applies when `valid_space`
rejects the attempted state (tetris.py lines 318-344). -/
def revert : Intent → Piece → Piece
  | .left, p => { p with x := p.x + 1 }
  | .right, p => { p with x := p.x - 1 }
  | .down, p => { p with y := p.y - 1 }
  | .rotCW, p => { p with rotation := p.rotation - 1 }
  | .rotCCW, p => { p with rotation := p.rotation + 1 }
  | .rot180, p => { p with rotation := p.rotation + (p.shape.length : Int) / 2 }

/-- One `KEYDOWN` intent handler of `main` (tetris.py lines 318-344):
mutate the piece, test `valid_space`, and undo the mutation on
rejection. -/
def apply_intent (it : Intent) (p : Piece) (grid : List (List Color)) : Piece :=
  let q := attempted it p
  if valid_space q grid then q else revert it q

/-- A piece of kind `S` resting directly against the left wall. -/
def wall_piece : Piece :=
  { x := 2, y := 5, shape := (shapes .S).rotations,
    color := (shapes .S).colour, rotation := 0 }

/-- The fresh piece that `bag_shuffler` yields each turn
(tetris.py line 113): `Piece(5, 3, current_piece)`, rotation 0. -/
def spawn_piece (k : Kind) : Piece :=
  { x := 5, y := 3, shape := (shapes k).rotations,
    color := (shapes k).colour, rotation := 0 }

/-- The two phases reachable right after a piece locks and its successor
spawns. -/
inductive Phase
  | Falling | GameOver
deriving DecidableEq

/-- The transition taken by `main` at the end of the iteration in which a
piece locks and the next piece spawns (tetris.py lines 364-380): the loop
stops — game over — exactly when `check_lost` fires on the locked cells;
otherwise the freshly spawned piece keeps falling. -/
def spawn_phase (locked : List ((Int × Int) × Color)) : Phase :=
  if check_lost locked then Phase.GameOver else Phase.Falling

/-- A single locked cell sitting in the spawn region. -/
def spawn_blockers : List ((Int × Int) × Color) := [((4, 0), (255, 0, 0))]

/-- Constant `LOCK_DELAY` (tetris.py line 19). -/
def LOCK_DELAY : Nat := 40

/-- The loop variables of `main` that the gravity branch touches
(tetris.py lines 301-309): the active piece, the lock-delay accumulator
(milliseconds), and the `change_piece` flag that triggers locking. -/
structure FallState where
  piece : Piece
  lock_delay : Nat
  change_piece : Bool
deriving DecidableEq

/-- The gravity branch of `main` (tetris.py lines 301-309): move the
piece down one row; if the new position is invalid (and below the top),
move it back up and add the elapsed milliseconds to the lock-delay
accumulator; once the accumulator reaches `LOCK_DELAY`, zero it and set
`change_piece`.  Nothing in this branch touches the accumulator when the
descent succeeds. -/
def gravity_step (elapsed : Nat) (grid : List (List Color)) (s : FallState) :
    FallState :=
  let p := { s.piece with y := s.piece.y + 1 }
  if valid_space p grid = false ∧ p.y > 0 then
    let q := { p with y := p.y - 1 }
    let ld := s.lock_delay + elapsed
    if LOCK_DELAY ≤ ld then
      { piece := q, lock_delay := 0, change_piece := true }
    else
      { piece := q, lock_delay := ld, change_piece := s.change_piece }
  else
    { piece := p, lock_delay := s.lock_delay, change_piece := s.change_piece }

/-- An `S` piece floating freely above the floor of an empty board. -/
def float_piece : Piece :=
  { x := 5, y := 5, shape := (shapes .S).rotations,
    color := (shapes .S).colour, rotation := 0 }

/-- A fall state carrying a partially accumulated lock delay. -/
def float_state : FallState :=
  { piece := float_piece, lock_delay := 30, change_piece := false }

/-- Constant `all_keys` (tetris.py line 97): the seven kinds the bag is filled
with. -/
def all_keys : List Kind := [.S, .Z, .I, .O, .J, .L, .T]

/-- The mutable state of `bag_shuffler` (tetris.py lines 96-113): the
number of refills performed so far (used to index the stream of shuffle
results) and the current pool of keys. -/
structure BagState where
  refills : Nat
  pool : List Kind
deriving DecidableEq

/-- One iteration of the `bag_shuffler` loop (tetris.py lines 100-113):
when the pool is empty it is refilled with the next shuffled copy of
`all_keys`, then a key is popped from the end of the pool.  The shuffle
results are abstracted into the parameter `perms`; `random.shuffle`
always yields a permutation of `all_keys`, the only fact the theorems
assume about it. -/
def bag_next (perms : Nat → List Kind) (s : BagState) : Kind × BagState :=
  let pr := if s.pool.isEmpty then (perms s.refills, s.refills + 1)
            else (s.pool, s.refills)
  (pr.1.getLast?.getD Kind.S, { refills := pr.2, pool := pr.1.dropLast })

/-- The key yielded by the `n`-th iteration of `bag_shuffler` started in
state `s`. -/
def bag_nth (perms : Nat → List Kind) (s : BagState) : Nat → Kind
  | 0 => (bag_next perms s).1
  | n + 1 => bag_nth perms (bag_next perms s).2 n

/-- The `n`-th key drawn from the generator, which starts with an empty
pool (tetris.py line 98). -/
def bag_draws (perms : Nat → List Kind) (n : Nat) : Kind :=
  bag_nth perms { refills := 0, pool := [] } n

/-- Constant `MATRIX_WIDTH` (og_tetris.py line 24). -/
def MATRIX_WIDTH : Nat := 10

/-- The `rows_to_clear` scan of `clear_rows` (og_tetris.py lines
139-144): the indices of the rows that contain no background-coloured
cell (`PLAY_COLOUR` equals `GRID_COLOUR`; `enumerate` is rendered as an
index range). -/
def og_rows_to_clear (matrix : List (List Color)) : List Nat :=
  (List.range matrix.length).filter (fun i =>
    !decide (GRID_COLOUR ∈ matrix.getD i []))

/-- Function `scoring` (og_tetris.py lines 164-165): an unimplemented stub whose
body is `pass`, so it returns `None` whatever the cleared rows were. -/
def og_scoring (_cleared_rows : List Nat) : Option Nat := none

/-- Function `clear_rows` of og_tetris.py (lines 137-161): one fresh empty row is
prepended per cleared row, the non-cleared rows follow in their original
order, and the new matrix is returned together with the (stubbed)
score. -/
def og_clear_rows (matrix : List (List Color)) : List (List Color) × Option Nat :=
  let rtc := og_rows_to_clear matrix
  let newm :=
    List.replicate rtc.length (List.replicate MATRIX_WIDTH GRID_COLOUR)
      ++ (List.range matrix.length).filterMap (fun i =>
          if i ∈ rtc then none else some (matrix.getD i []))
  (newm, og_scoring rtc)

/-- A 30 × 10 matrix whose only full row is the topmost spawn-buffer
row. -/
def buffer_full_matrix : List (List Color) :=
  List.replicate 10 (255, 0, 0)
    :: List.replicate 29 (List.replicate 10 GRID_COLOUR)

/-- A small board with one full row above one empty row. -/
def small_board : List (List Color) :=
  [List.replicate 10 (255, 0, 0), List.replicate 10 GRID_COLOUR]

/-- Python dict deletion `del locked[key]` under try/except (tetris.py
lines 151-155): remove the binding when present, do nothing
otherwise. -/
def dict_erase (d : List ((Int × Int) × Color)) (k : Int × Int) :
    List ((Int × Int) × Color) :=
  d.filter (fun kv => decide (kv.1 ≠ k))

/-- Python dict assignment `locked[key] = v`: overwrite an existing
binding in place, otherwise append a fresh binding at the end. -/
def dict_insert (d : List ((Int × Int) × Color)) (k : Int × Int) (v : Color) :
    List ((Int × Int) × Color) :=
  if (d.lookup k).isSome then
    d.map (fun kv => if kv.1 = k then (k, v) else kv)
  else
    d ++ [(k, v)]

/-- The deletion pass of `clear_rows` (tetris.py lines 145-155): walk
the row indices bottom-up; for every row without a background cell,
bump the cleared counter `inc`, remember the row index in `ind`, and
delete that row's cells from the locked dictionary.  `ind` starts at
the sentinel 20 — in Python it is unassigned until the first full row —
and is only ever read when `inc > 0`, at which point it holds the
topmost cleared row index. -/
def clear_pass (grid : List (List Color)) (locked : List ((Int × Int) × Color)) :
    List ((Int × Int) × Color) × Nat × Int :=
  (List.range grid.length).reverse.foldl
    (fun acc i =>
      if GRID_COLOUR ∈ grid.getD i [] then acc
      else
        ((List.range (grid.getD i []).length).foldl
            (fun l j => dict_erase l (Int.ofNat j, Int.ofNat i)) acc.1,
          acc.2.1 + 1, Int.ofNat i))
    (locked, 0, 20)

/-- The shift pass of `clear_rows` (tetris.py lines 157-162): when rows
were cleared, walk a snapshot of the keys sorted by row, bottom-most
first, and move every key strictly above the topmost cleared row down
by `inc` rows (`locked[newKey] = locked.pop(key)`).  The `none` branch
of the lookup is unreachable: every snapshotted key is still present
when it is processed. -/
def shift_pass (locked : List ((Int × Int) × Color)) (inc : Nat) (ind : Int) :
    List ((Int × Int) × Color) :=
  if 0 < inc then
    (((locked.map Prod.fst).mergeSort (fun a b => decide (a.2 ≤ b.2))).reverse).foldl
      (fun l key =>
        if key.2 < ind then
          match l.lookup key with
          | some v => dict_insert (dict_erase l key) (key.1, key.2 + (inc : Int)) v
          | none => l
        else l)
      locked
  else locked

/-- Function `clear_rows` of tetris.py (lines 143-164): the deletion pass
followed by the shift pass; the returned number is `inc`, the count of
cleared rows. -/
def tetris_clear_rows (grid : List (List Color))
    (locked : List ((Int × Int) × Color)) :
    List ((Int × Int) × Color) × Nat :=
  let res := clear_pass grid locked
  (shift_pass res.1 res.2.1 res.2.2, res.2.1)

/-- The Python statement `grid[y][x] = colour`.  A negative `x` wraps
from the right as in Python list indexing; an index that Python would
reject with an exception leaves the grid unchanged here (the callers
only reach this statement with pre-validated coordinates). -/
def grid_set (grid : List (List Color)) (x y : Int) (c : Color) :
    List (List Color) :=
  grid.enum.map (fun irow =>
    if (irow.1 : Int) = y then
      irow.2.enum.map (fun jcell =>
        if (jcell.1 : Int) = (if x < 0 then x + (irow.2.length : Int) else x)
        then c else jcell.2)
    else irow.2)

/-- tetris.py lines 348-351: paint every shape cell lying on a row with
index above `-1` into the display grid. -/
def bake_grid (grid : List (List Color)) (shape_pos : List (Int × Int))
    (c : Color) : List (List Color) :=
  shape_pos.foldl
    (fun g pos => if pos.2 > -1 then grid_set g pos.1 pos.2 c else g) grid

/-- tetris.py lines 361-363: write the piece's colour into the locked
dictionary at every shape cell. -/
def lock_piece (locked : List ((Int × Int) × Color))
    (shape_pos : List (Int × Int)) (c : Color) : List ((Int × Int) × Color) :=
  shape_pos.foldl (fun d pos => dict_insert d pos c) locked

/-- Function `max_score` (tetris.py lines 222-223): a stub returning the string
zero. -/
def max_score : String := "0"

/-- The pieces of `main`'s loop state that the lock step reads and
writes. -/
structure GState where
  locked : List ((Int × Int) × Color)
  score : Int
  turn : Int
deriving DecidableEq

/-- The snapshot record built at lock time (tetris.py lines 354-357). -/
structure Snapshot where
  grid : List (List Color)
  score : Int
  last_score : String
deriving DecidableEq

/-- The `change_piece` block of `main` (tetris.py lines 346-369): the
display grid is rebuilt from the locked cells and the falling piece is
painted into it (lines 346-351); the snapshot is recorded with the
score as it currently stands; the piece's cells enter the locked
dictionary; `clear_rows` runs on the baked grid; finally the score
gains `clear_rows * 10` and the turn counter advances by one. -/
def lock_step (s : GState) (piece : Piece) : GState × Snapshot :=
  let grid := create_grid s.locked
  let shape_pos := convert_shape_format piece
  let baked := bake_grid grid shape_pos piece.color
  let snapshot : Snapshot :=
    { grid := baked, score := s.score, last_score := max_score }
  let locked := lock_piece s.locked shape_pos piece.color
  let res := tetris_clear_rows baked locked
  ({ locked := res.1, score := s.score + (res.2 : Int) * 10, turn := s.turn + 1 },
    snapshot)

/-- The number of rows of a display grid containing no background
cell. -/
def full_row_count (grid : List (List Color)) : Nat :=
  ((List.range grid.length).filter
    (fun i => !decide (GRID_COLOUR ∈ grid.getD i []))).length

/-- The game state at the start of a run (tetris.py lines 264-278). -/
def start_state : GState := { locked := [], score := 0, turn := 1 }

/-- Membership in the accepted list is exactly: column in `[0, 9]`, row in
`[0, 19]`, and the grid cell at that coordinate holds the background
colour. -/
theorem mem_accepted_pos (grid : List (List Color)) (pos : Int × Int) :
    pos ∈ accepted_pos grid ↔
      0 ≤ pos.1 ∧ pos.1 < 10 ∧ 0 ≤ pos.2 ∧ pos.2 < 20 ∧
        (grid.getD pos.2.toNat []).getD pos.1.toNat (0, 0, 0) = GRID_COLOUR := by
  unfold accepted_pos
  constructor
  · intro h
    rcases List.mem_flatten.mp h with ⟨l, hl, hpos⟩
    rcases List.mem_map.mp hl with ⟨i, hi, rfl⟩
    rcases List.mem_map.mp hpos with ⟨j, hj, rfl⟩
    rcases List.mem_filter.mp hj with ⟨hjr, hcell⟩
    rw [List.mem_range] at hi hjr
    simp only [decide_eq_true_eq] at hcell
    refine ⟨by simp, ?_, by simp, ?_, ?_⟩
    · show Int.ofNat j < 10
      simp only [Int.ofNat_eq_coe]; omega
    · show Int.ofNat i < 20
      simp only [Int.ofNat_eq_coe]; omega
    · simpa using hcell
  · rintro ⟨h1, h2, h3, h4, hcell⟩
    apply List.mem_flatten.mpr
    refine ⟨_, List.mem_map.mpr ⟨pos.2.toNat, List.mem_range.mpr (by omega), rfl⟩, ?_⟩
    apply List.mem_map.mpr
    refine ⟨pos.1.toNat, List.mem_filter.mpr ⟨List.mem_range.mpr (by omega), ?_⟩, ?_⟩
    · simpa using hcell
    · have e1 : Int.ofNat pos.1.toNat = pos.1 := by simpa using Int.toNat_of_nonneg h1
      have e2 : Int.ofNat pos.2.toNat = pos.2 := by simpa using Int.toNat_of_nonneg h3
      rw [e1, e2]

/-- C1: `valid_space` returns `true` exactly when every filled mask cell
of the piece, taken at its absolute board coordinate, either lies on a
row above the visible field (row index negative, never blocking) or has
its column in `[0, 9]`, its row below the bottom bound 20, and a
background-coloured (unoccupied) grid cell at that coordinate. -/
theorem valid_space_iff (p : Piece) (grid : List (List Color)) :
    valid_space p grid = true ↔
      ∀ pos ∈ convert_shape_format p, 0 ≤ pos.2 →
        0 ≤ pos.1 ∧ pos.1 < 10 ∧ pos.2 < 20 ∧
          (grid.getD pos.2.toNat []).getD pos.1.toNat (0, 0, 0) = GRID_COLOUR := by
  unfold valid_space
  rw [List.all_eq_true]
  constructor
  · intro h pos hpos hge
    have := h pos hpos
    simp only [Bool.or_eq_true, decide_eq_true_eq] at this
    rcases this with hmem | hle
    · have := (mem_accepted_pos grid pos).mp hmem
      exact ⟨this.1, this.2.1, this.2.2.2.1, this.2.2.2.2⟩
    · omega
  · intro h pos hpos
    simp only [Bool.or_eq_true, decide_eq_true_eq]
    by_cases hge : 0 ≤ pos.2
    · rcases h pos hpos hge with ⟨h1, h2, h3, h4⟩
      exact Or.inl ((mem_accepted_pos grid pos).mpr ⟨h1, h2, hge, h3, h4⟩)
    · exact Or.inr (by omega)

/-- C4: the shape catalog is not fully rectangular.  Every kind does have
exactly 4 rotation states, but rotation state 1 of `L` and rotation
state 1 of `T` each start with the two-character row ".0" (a missing
trailing dot in `assets.py`), so those rows have width 2 where the
spec requires width 3.  The filled cells are unaffected by the missing
trailing blank. -/
theorem shapes_ragged_rotation_rows :
    (∀ k : Kind, (shapes k).rotations.length = 4)
    ∧ (((shapes Kind.L).rotations.getD 1 []).getD 0 "").length = 2
    ∧ (((shapes Kind.T).rotations.getD 1 []).getD 0 "").length = 2 := by
  refine ⟨fun k => ?_, by decide, by decide⟩
  cases k <;> rfl

theorem revert_attempted (it : Intent) (p : Piece) :
    revert it (attempted it p) = p := by
  cases it <;> simp [attempted, revert]

/-- C3: every intent handler either leaves the piece exactly as it was
(when the attempted state fails `valid_space`) or replaces it by the
attempted state, and the latter happens only when the attempted state
passes `valid_space` — no partial application. -/
theorem apply_intent_revert (it : Intent) (p : Piece) (grid : List (List Color)) :
    (valid_space (attempted it p) grid = false → apply_intent it p grid = p)
    ∧ (apply_intent it p grid = p
        ∨ (valid_space (attempted it p) grid = true
            ∧ apply_intent it p grid = attempted it p)) := by
  constructor
  · intro hv
    simp only [apply_intent]
    rw [hv]
    simpa using revert_attempted it p
  · simp only [apply_intent]
    by_cases hv : valid_space (attempted it p) grid = true
    · rw [if_pos hv]
      exact Or.inr ⟨hv, rfl⟩
    · rw [if_neg hv]
      exact Or.inl (by simpa using revert_attempted it p)

/-- Witness for C3: on an empty board, a left move from the wall is
rejected and the handler leaves the piece unchanged. -/
theorem apply_intent_revert_witness :
    apply_intent Intent.left wall_piece (create_grid []) = wall_piece :=
  (apply_intent_revert Intent.left wall_piece (create_grid [])).1 (by decide)

theorem range_map_getD {α : Type} (n : Nat) (f : Nat → α) (d : α) (i : Nat)
    (h : i < n) : ((List.range n).map f).getD i d = f i := by
  rw [List.getD_eq_getElem?_getD, List.getElem?_map, List.getElem?_range h]
  rfl

theorem lookup_mem {α β : Type} [BEq α] [LawfulBEq α] {l : List (α × β)} {k : α} {v : β}
    (h : l.lookup k = some v) : (k, v) ∈ l := by
  induction l with
  | nil => simp [List.lookup] at h
  | cons a t ih =>
    obtain ⟨a1, a2⟩ := a
    by_cases hk : k = a1
    · subst hk
      simp only [List.lookup, beq_self_eq_true] at h
      have hv : a2 = v := Option.some_inj.mp h
      subst hv
      exact List.mem_cons_self _ _
    · have hbeq : (k == a1) = false := beq_eq_false_iff_ne.mpr hk
      simp only [List.lookup, hbeq] at h
      exact List.mem_cons_of_mem _ (ih h)

/-- A cell of `create_grid locked` holds whatever the locked dictionary
records at `(j, i)`, defaulting to the background colour. -/
theorem create_grid_cell (locked : List ((Int × Int) × Color)) (i j : Nat)
    (hi : i < 20) (hj : j < 10) :
    ((create_grid locked).getD i []).getD j (0, 0, 0) =
      (locked.lookup (Int.ofNat j, Int.ofNat i)).getD GRID_COLOUR := by
  unfold create_grid
  rw [range_map_getD 20 _ [] i hi, range_map_getD 10 _ (0, 0, 0) j hj]
  cases locked.lookup (Int.ofNat j, Int.ofNat i) <;> rfl

/-- Every filled cell of a freshly spawned piece lies in columns 3-6 on
row `-1` or row `0`.  Checked by evaluation for each of the 7 kinds. -/
theorem spawn_piece_cells (k : Kind) :
    ∀ pos ∈ convert_shape_format (spawn_piece k),
      0 ≤ pos.1 ∧ pos.1 < 10 ∧ (pos.2 = -1 ∨ pos.2 = 0) := by
  cases k <;> decide

/-- C5: if the spawn position of the next piece is already blocked, or
some locked cell lies above the height threshold (row index < 1), the
game moves straight to game over without the new piece falling; with a
free spawn position and no such cell it keeps falling.  (A blocked spawn
always implies a locked cell on row 0, hence the threshold check alone
decides the transition.) -/
theorem spawn_phase_correct (locked : List ((Int × Int) × Color)) (k : Kind) :
    ((valid_space (spawn_piece k) (create_grid locked) = false
        ∨ ∃ q ∈ locked, q.1.2 < 1) →
      spawn_phase locked = Phase.GameOver)
    ∧ ((valid_space (spawn_piece k) (create_grid locked) = true
        ∧ ∀ q ∈ locked, ¬ q.1.2 < 1) →
      spawn_phase locked = Phase.Falling) := by
  have key : ∀ q ∈ locked, q.1.2 < 1 → check_lost locked = true := by
    intro q hq hy
    unfold check_lost
    rw [List.any_eq_true]
    exact ⟨q.1, List.mem_map.mpr ⟨q, hq, rfl⟩, by simpa using hy⟩
  constructor
  · intro h
    have hcl : check_lost locked = true := by
      rcases h with hblock | ⟨q, hq, hy⟩
      · unfold valid_space at hblock
        rw [List.all_eq_false] at hblock
        rcases hblock with ⟨pos, hpos, hfail⟩
        simp only [Bool.or_eq_true, decide_eq_true_eq, not_or] at hfail
        rcases hfail with ⟨hnotmem, hrow⟩
        rcases spawn_piece_cells k pos hpos with ⟨hx0, hx10, hy'⟩
        have hy0 : pos.2 = 0 := by omega
        rw [mem_accepted_pos] at hnotmem
        push_neg at hnotmem
        have hcell := hnotmem hx0 hx10 (by omega) (by omega)
        rw [hy0] at hcell
        have hcg := create_grid_cell locked 0 pos.1.toNat (by omega) (by omega)
        simp only [Int.toNat_zero] at hcell
        rw [hcg] at hcell
        rcases hlook : locked.lookup (Int.ofNat pos.1.toNat, Int.ofNat 0) with _ | c
        · rw [hlook] at hcell
          simp at hcell
        · exact key _ (lookup_mem hlook) (by simp)
      · exact key q hq hy
    unfold spawn_phase
    rw [hcl]
    rfl
  · rintro ⟨hvalid, hno⟩
    have hcl : check_lost locked = false := by
      unfold check_lost
      rw [List.any_eq_false]
      intro pos hpos
      rcases List.mem_map.mp hpos with ⟨q, hq, rfl⟩
      simpa using hno q hq
    unfold spawn_phase
    rw [hcl]
    rfl

/-- Witness for C5: with a locked cell at `(4, 0)` the spawn position of
an `S` piece is blocked and the transition is straight to game over. -/
theorem spawn_phase_correct_witness :
    spawn_phase spawn_blockers = Phase.GameOver :=
  (spawn_phase_correct spawn_blockers Kind.S).1 (Or.inl (by decide))

/-- Counterexample for C6: a successful gravity descent does not reset
the lock-delay accumulator — here the descent is valid yet the
accumulator keeps its old non-zero value 30. -/
theorem gravity_step_no_reset :
    valid_space { float_piece with y := float_piece.y + 1 } (create_grid []) = true
    ∧ (gravity_step 5 (create_grid []) float_state).lock_delay
        = float_state.lock_delay
    ∧ float_state.lock_delay ≠ 0 := by
  refine ⟨by decide, by decide, by decide⟩

/-- C6 (amended): the piece is marked for baking (`change_piece`) only
once the lock-delay accumulator plus the elapsed time has reached the
`LOCK_DELAY` threshold; the accumulator is zeroed exactly when that
trigger fires, and a successful gravity descent leaves the accumulator
unchanged rather than resetting it. -/
theorem gravity_step_lock_delay (elapsed : Nat) (grid : List (List Color))
    (s : FallState) :
    ((gravity_step elapsed grid s).change_piece = true →
      s.change_piece = true ∨ LOCK_DELAY ≤ s.lock_delay + elapsed)
    ∧ (valid_space { s.piece with y := s.piece.y + 1 } grid = true →
      (gravity_step elapsed grid s).lock_delay = s.lock_delay)
    ∧ ((gravity_step elapsed grid s).change_piece = true ∧ s.change_piece = false →
      (gravity_step elapsed grid s).lock_delay = 0) := by
  simp only [gravity_step]
  split_ifs with h1 h2 <;> simp_all

/-- Witness for C6's amended theorem: a concrete successful descent with
the accumulator untouched. -/
theorem gravity_step_lock_delay_witness :
    (gravity_step 7 (create_grid []) float_state).lock_delay
      = float_state.lock_delay :=
  (gravity_step_lock_delay 7 (create_grid []) float_state).2.1 (by decide)

theorem getD_reverse_dropLast (p : List Kind) (hp : p ≠ []) (i : Nat) :
    p.dropLast.reverse.getD i Kind.S = p.reverse.getD (i + 1) Kind.S := by
  conv_rhs => rw [← List.dropLast_append_getLast hp]
  rw [List.reverse_append]
  rfl

theorem getLast_getD_reverse (p : List Kind) (hp : p ≠ []) :
    p.getLast?.getD Kind.S = p.reverse.getD 0 Kind.S := by
  rw [List.getLast?_eq_head?_reverse]
  rcases hrev : p.reverse with _ | ⟨a, t⟩
  · exact absurd (List.reverse_eq_nil_iff.mp hrev) hp
  · rfl

theorem bag_nth_pool (perms : Nat → List Kind) :
    ∀ (i : Nat) (p : List Kind) (r : Nat), i < p.length →
      bag_nth perms { refills := r, pool := p } i = p.reverse.getD i Kind.S := by
  intro i
  induction i with
  | zero =>
    intro p r hi
    have hp : p ≠ [] := by intro h; subst h; simp at hi
    have hne : p.isEmpty = false := by simpa using hp
    simp only [bag_nth, bag_next, hne, if_neg Bool.false_ne_true]
    exact getLast_getD_reverse p hp
  | succ i ih =>
    intro p r hi
    have hp : p ≠ [] := by intro h; subst h; simp at hi
    have hne : p.isEmpty = false := by simpa using hp
    have hlen : i < p.dropLast.length := by
      rw [List.length_dropLast]; omega
    simp only [bag_nth, bag_next, hne, if_neg Bool.false_ne_true]
    rw [ih p.dropLast r hlen]
    exact getD_reverse_dropLast p hp i

theorem bag_nth_exhaust (perms : Nat → List Kind) :
    ∀ (L : Nat) (p : List Kind) (r n : Nat), p.length = L →
      bag_nth perms { refills := r, pool := p } (p.length + n)
        = bag_nth perms { refills := r, pool := [] } n := by
  intro L
  induction L with
  | zero =>
    intro p r n hL
    have : p = [] := List.length_eq_zero.mp hL
    subst this
    simp
  | succ L ih =>
    intro p r n hL
    have hp : p ≠ [] := by intro h; subst h; simp at hL
    have hne : p.isEmpty = false := by simpa using hp
    have harith : p.length + n = (p.dropLast.length + n) + 1 := by
      rw [List.length_dropLast]; omega
    rw [harith]
    simp only [bag_nth, bag_next, hne, if_neg Bool.false_ne_true]
    exact ih p.dropLast r n (by rw [List.length_dropLast]; omega)

theorem bag_nth_block (perms : Nat → List Kind) (h7 : ∀ k, (perms k).length = 7) :
    ∀ (k i : Nat), i < 7 →
      bag_nth perms { refills := k, pool := [] } i
        = (perms k).reverse.getD i Kind.S := by
  intro k i hi
  have hp : perms k ≠ [] := by
    intro h
    have := h7 k
    rw [h] at this
    simp at this
  cases i with
  | zero =>
    simp only [bag_nth, bag_next, List.isEmpty_nil, eq_self_iff_true, if_true]
    exact getLast_getD_reverse (perms k) hp
  | succ i =>
    simp only [bag_nth, bag_next, List.isEmpty_nil, eq_self_iff_true, if_true]
    rw [bag_nth_pool perms i ((perms k).dropLast) (k + 1)
      (by rw [List.length_dropLast, h7 k]; omega)]
    exact getD_reverse_dropLast (perms k) hp i

theorem bag_nth_skip (perms : Nat → List Kind) (h7 : ∀ k, (perms k).length = 7)
    (k n : Nat) :
    bag_nth perms { refills := k, pool := [] } (7 + n)
      = bag_nth perms { refills := k + 1, pool := [] } n := by
  have hskip := bag_nth_exhaust perms 6 ((perms k).dropLast) (k + 1) n
    (by rw [List.length_dropLast, h7 k])
  have harith : (7 : Nat) + n = ((perms k).dropLast.length + n) + 1 := by
    rw [List.length_dropLast, h7 k]; omega
  rw [harith]
  simp only [bag_nth, bag_next, List.isEmpty_nil, eq_self_iff_true, if_true]
  exact hskip

theorem bag_draws_closed (perms : Nat → List Kind) (h7 : ∀ k, (perms k).length = 7) :
    ∀ (k r i : Nat), i < 7 →
      bag_nth perms { refills := r, pool := [] } (7 * k + i)
        = (perms (r + k)).reverse.getD i Kind.S := by
  intro k
  induction k with
  | zero =>
    intro r i hi
    simpa using bag_nth_block perms h7 r i hi
  | succ k ih =>
    intro r i hi
    have harith : 7 * (k + 1) + i = 7 + (7 * k + i) := by omega
    rw [harith, bag_nth_skip perms h7 r (7 * k + i), ih (r + 1) i hi]
    have : r + 1 + k = r + (k + 1) := by omega
    rw [this]

theorem range_len_map_getD {α : Type} (d : α) :
    ∀ (l : List α), (List.range l.length).map (fun i => l.getD i d) = l := by
  intro l
  induction l with
  | nil => rfl
  | cons a t ih =>
    show (List.range (t.length + 1)).map (fun i => (a :: t).getD i d) = a :: t
    rw [List.range_succ_eq_map, List.map_cons, List.map_map]
    have : ((fun i => (a :: t).getD i d) ∘ Nat.succ) = (fun i => t.getD i d) := by
      funext i
      simp [Function.comp, List.getD_cons_succ]
    rw [this, ih]
    rfl

/-- C7: assuming only that every shuffle produces a permutation of the
seven kinds, the draws of `bag_shuffler` in any aligned block of 7
(a fresh pool) contain every kind exactly once, and after any occurrence
of a kind the same kind reappears within 13 draws (at most 12 other
draws in between).  The draw at every index is well defined because the
pool is refilled whenever it empties. -/
theorem bag_shuffler_spec (perms : Nat → List Kind)
    (h : ∀ k, (perms k).Perm all_keys) :
    (∀ (k : Nat) (kind : Kind),
      ((List.range 7).map (fun i => bag_draws perms (7 * k + i))).count kind = 1)
    ∧ (∀ (kind : Kind) (n : Nat), bag_draws perms n = kind →
        ∃ m, n < m ∧ m ≤ n + 13 ∧ bag_draws perms m = kind) := by
  have h7 : ∀ k, (perms k).length = 7 := fun k => (h k).length_eq
  have hrevlen : ∀ k, (perms k).reverse.length = 7 := by
    intro k; rw [List.length_reverse]; exact h7 k
  have hblock : ∀ k : Nat,
      (List.range 7).map (fun i => bag_draws perms (7 * k + i))
        = (perms k).reverse := by
    intro k
    have hcongr : ∀ i ∈ List.range 7,
        bag_draws perms (7 * k + i) = (perms k).reverse.getD i Kind.S := by
      intro i hi
      rw [List.mem_range] at hi
      unfold bag_draws
      simpa using bag_draws_closed perms h7 k 0 i hi
    rw [List.map_congr_left hcongr]
    have := range_len_map_getD Kind.S ((perms k).reverse)
    rw [hrevlen k] at this
    exact this
  have hcount1 : ∀ kind : Kind, all_keys.count kind = 1 := by
    intro kind; cases kind <;> decide
  have hblockcount : ∀ (k : Nat) (kind : Kind),
      ((List.range 7).map (fun i => bag_draws perms (7 * k + i))).count kind = 1 := by
    intro k kind
    rw [hblock k, List.count_reverse, (h k).count_eq kind, hcount1 kind]
  refine ⟨hblockcount, ?_⟩
  intro kind n _
  have hmem : kind ∈ (perms (n / 7 + 1)).reverse := by
    rw [List.mem_reverse]
    have := (h (n / 7 + 1)).count_eq kind
    rw [hcount1 kind] at this
    exact List.count_pos_iff.mp (by omega)
  rcases List.mem_iff_getElem.mp hmem with ⟨i, hilen, hval⟩
  have hi7 : i < 7 := by
    have := hrevlen (n / 7 + 1)
    omega
  refine ⟨7 * (n / 7 + 1) + i, ?_, ?_, ?_⟩
  · have := Nat.div_add_mod n 7
    have := Nat.mod_lt n (show 0 < 7 by omega)
    omega
  · have := Nat.div_add_mod n 7
    omega
  · unfold bag_draws
    rw [bag_draws_closed perms h7 (n / 7 + 1) 0 i hi7]
    simp only [Nat.zero_add]
    rw [List.getD_eq_getElem?_getD, List.getElem?_eq_getElem hilen]
    simpa using hval

/-- Witness for C7: with the identity shuffle the very first block of 7
draws contains the kind `S` exactly once. -/
theorem bag_shuffler_spec_witness :
    ((List.range 7).map (fun i => bag_draws (fun _ => all_keys) (7 * 0 + i))).count
      Kind.S = 1 :=
  (bag_shuffler_spec (fun _ => all_keys) (fun _ => List.Perm.refl _)).1 0 Kind.S

theorem range_filter_getD_length {α : Type} (P : α → Bool) (d : α) :
    ∀ (l : List α),
      ((List.range l.length).filter (fun i => P (l.getD i d))).length
        = (l.filter P).length := by
  intro l
  induction l with
  | nil => rfl
  | cons a t ih =>
    show ((List.range (t.length + 1)).filter (fun i => P ((a :: t).getD i d))).length
      = ((a :: t).filter P).length
    rw [List.range_succ_eq_map]
    rw [List.filter_cons, List.filter_cons, List.filter_map]
    have hcong : ((fun i => P ((a :: t).getD i d)) ∘ Nat.succ)
        = (fun i => P (t.getD i d)) := by
      funext i
      simp [Function.comp, List.getD_cons_succ]
    rw [hcong]
    simp only [List.getD_cons_zero]
    by_cases hPa : P a = true
    · rw [if_pos hPa, if_pos hPa]
      simp only [List.length_cons, List.length_map]
      rw [ih]
    · rw [if_neg hPa, if_neg hPa]
      simp only [List.length_map]
      rw [ih]

theorem range_filterMap_getD {α : Type} (P : α → Bool) (d : α) :
    ∀ (l : List α),
      (List.range l.length).filterMap (fun i =>
          if P (l.getD i d) = true then none else some (l.getD i d))
        = l.filter (fun r => !P r) := by
  intro l
  induction l with
  | nil => rfl
  | cons a t ih =>
    show (List.range (t.length + 1)).filterMap (fun i =>
        if P ((a :: t).getD i d) = true then none else some ((a :: t).getD i d))
      = (a :: t).filter (fun r => !P r)
    rw [List.range_succ_eq_map, List.filterMap_cons, List.filterMap_map]
    have hcong : ((fun i =>
        if P ((a :: t).getD i d) = true then none else some ((a :: t).getD i d))
          ∘ Nat.succ)
        = (fun i => if P (t.getD i d) = true then none else some (t.getD i d)) := by
      funext i
      simp [Function.comp, List.getD_cons_succ]
    rw [hcong, ih, List.filter_cons]
    simp only [List.getD_cons_zero]
    by_cases hPa : P a = true
    · simp [hPa]
    · simp [hPa]

theorem filter_getElem_countP {α : Type} (p : α → Bool) :
    ∀ (l : List α) (i : Nat) (h : i < l.length), p l[i] = true →
      (l.filter p)[(l.take i).countP p]? = some l[i] := by
  intro l
  induction l with
  | nil => intro i h; simp at h
  | cons a t ih =>
    intro i h hp
    cases i with
    | zero =>
      simp only [List.getElem_cons_zero] at hp ⊢
      rw [List.filter_cons_of_pos hp, List.take_zero, List.countP_nil,
        List.getElem?_cons_zero]
    | succ i =>
      have hit : i < t.length := by simpa using h
      simp only [List.getElem_cons_succ] at hp ⊢
      rw [List.take_succ_cons, List.countP_cons]
      by_cases hpa : p a = true
      · rw [List.filter_cons_of_pos hpa]
        simp only [hpa, if_true]
        rw [List.getElem?_cons_succ]
        exact ih i hit hp
      · rw [List.filter_cons_of_neg (by simpa using hpa)]
        rw [if_neg hpa, Nat.add_zero]
        exact ih i hit hp

theorem filter_partition_length (m : List (List Color)) :
    (m.filter (fun r => !decide (GRID_COLOUR ∈ r))).length
      + (m.filter (fun r => decide (GRID_COLOUR ∈ r))).length = m.length := by
  induction m with
  | nil => rfl
  | cons a t ih =>
    rw [List.filter_cons, List.filter_cons]
    by_cases ha : GRID_COLOUR ∈ a
    · simp only [ha, decide_True, Bool.not_true, Bool.false_eq_true, if_false,
        if_true, List.length_cons]
      omega
    · simp only [ha, decide_False, Bool.not_false, if_true, Bool.false_eq_true,
        if_false, List.length_cons]
      omega

theorem og_clear_rows_shape (m : List (List Color)) :
    (og_clear_rows m).1
      = List.replicate (m.filter (fun r => !decide (GRID_COLOUR ∈ r))).length
          (List.replicate 10 GRID_COLOUR)
        ++ m.filter (fun r => decide (GRID_COLOUR ∈ r)) := by
  simp only [og_clear_rows]
  congr 1
  · rw [show MATRIX_WIDTH = 10 from rfl]
    congr 1
    unfold og_rows_to_clear
    exact range_filter_getD_length (fun r => !decide (GRID_COLOUR ∈ r)) [] m
  · have hcongr : ∀ i ∈ List.range m.length,
        (if i ∈ og_rows_to_clear m then none else some (m.getD i []))
          = (if (!decide (GRID_COLOUR ∈ m.getD i [])) = true then none
             else some (m.getD i [])) := by
      intro i hi
      have hiff : (i ∈ og_rows_to_clear m)
          ↔ ((!decide (GRID_COLOUR ∈ m.getD i [])) = true) := by
        unfold og_rows_to_clear
        rw [List.mem_filter]
        simp [hi]
      exact if_congr hiff rfl rfl
    rw [List.filterMap_congr hcongr,
      range_filterMap_getD (fun r => !decide (GRID_COLOUR ∈ r)) [] m]
    apply List.filter_congr
    intro r _
    rw [Bool.not_not]

/-- C2 (amended): `clear_rows` of og_tetris.py removes exactly the rows
(spawn-buffer rows included) in which no cell is empty, renumbers the
remaining rows — each drops by the number of cleared rows below it — and
prepends the same number of fresh all-empty rows, preserving the row
count and the row width 10; the cleared-row count itself is not
returned: the stubbed `scoring` yields `None`, the count being
recoverable as the number of removed rows. -/
theorem og_clear_rows_spec (m : List (List Color))
    (hw : ∀ row ∈ m, row.length = 10) :
    ((og_clear_rows m).1
        = List.replicate (m.filter (fun r => !decide (GRID_COLOUR ∈ r))).length
            (List.replicate 10 GRID_COLOUR)
          ++ m.filter (fun r => decide (GRID_COLOUR ∈ r)))
    ∧ (og_clear_rows m).1.length = m.length
    ∧ (∀ row ∈ (og_clear_rows m).1, row.length = 10)
    ∧ (og_clear_rows m).2 = none
    ∧ (∀ (i : Nat) (hi : i < m.length), GRID_COLOUR ∈ m[i] →
        (og_clear_rows m).1[i + (m.drop (i + 1)).countP
            (fun r => !decide (GRID_COLOUR ∈ r))]? = some m[i]) := by
  refine ⟨og_clear_rows_shape m, ?_, ?_, rfl, ?_⟩
  · rw [og_clear_rows_shape m, List.length_append, List.length_replicate]
    exact filter_partition_length m
  · rw [og_clear_rows_shape m]
    intro row hrow
    rcases List.mem_append.mp hrow with hrep | hfil
    · rw [List.eq_of_mem_replicate hrep]
      simp
    · exact hw row (List.mem_of_mem_filter hfil)
  · intro i hi hkeep
    rw [og_clear_rows_shape m]
    have hfull_i : (!decide (GRID_COLOUR ∈ m[i])) = false := by simp [hkeep]
    have hkeep_i : decide (GRID_COLOUR ∈ m[i]) = true := by simp [hkeep]
    have htake_len : (m.take i).length = i := by
      rw [List.length_take]; omega
    have htake_succ : List.countP (fun r => !decide (GRID_COLOUR ∈ r)) (m.take (i + 1))
        = List.countP (fun r => !decide (GRID_COLOUR ∈ r)) (m.take i) := by
      rw [List.take_succ, List.getElem?_eq_getElem hi]
      rw [List.countP_append]
      simp [hfull_i]
    have hsplit : List.countP (fun r => !decide (GRID_COLOUR ∈ r)) m
        = List.countP (fun r => !decide (GRID_COLOUR ∈ r)) (m.take (i + 1))
          + List.countP (fun r => !decide (GRID_COLOUR ∈ r)) (m.drop (i + 1)) := by
      conv_lhs => rw [← List.take_append_drop (i + 1) m]
      rw [List.countP_append]
    have hpart := filter_partition_length (m.take i)
    rw [← List.countP_eq_length_filter, ← List.countP_eq_length_filter,
      htake_len] at hpart
    have hKcnt : (m.filter (fun r => !decide (GRID_COLOUR ∈ r))).length
        = List.countP (fun r => !decide (GRID_COLOUR ∈ r)) m :=
      (List.countP_eq_length_filter _ m).symm
    have hidx : i + (m.drop (i + 1)).countP (fun r => !decide (GRID_COLOUR ∈ r))
        = (m.filter (fun r => !decide (GRID_COLOUR ∈ r))).length
          + List.countP (fun r => decide (GRID_COLOUR ∈ r)) (m.take i) := by
      omega
    rw [hidx, List.getElem?_append_right (by rw [List.length_replicate]; omega)]
    rw [List.length_replicate]
    have hsub : (m.filter (fun r => !decide (GRID_COLOUR ∈ r))).length
        + List.countP (fun r => decide (GRID_COLOUR ∈ r)) (m.take i)
        - (m.filter (fun r => !decide (GRID_COLOUR ∈ r))).length
        = List.countP (fun r => decide (GRID_COLOUR ∈ r)) (m.take i) := by
      omega
    rw [hsub]
    exact filter_getElem_countP (fun r => decide (GRID_COLOUR ∈ r)) m i hi hkeep_i

/-- Counterexample for C2: on a board whose only full row lies in the
spawn buffer, the claim demands an unchanged board (no visible full
rows) and a returned cleared-row count of 0; og_tetris's `clear_rows`
instead removes the buffer row and returns no count at all (`None` from
the stubbed `scoring`). -/
theorem og_clear_rows_counterexample :
    (og_clear_rows buffer_full_matrix).1 ≠ buffer_full_matrix
    ∧ (og_clear_rows buffer_full_matrix).2 = none := by
  exact ⟨by decide, rfl⟩

/-- Witness for C2's amended theorem: row count is preserved on a
concrete board. -/
theorem og_clear_rows_spec_witness :
    (og_clear_rows small_board).1.length = small_board.length :=
  (og_clear_rows_spec small_board (by decide)).2.1

theorem clear_pass_fold_count (grid : List (List Color)) :
    ∀ (is : List Nat) (acc : List ((Int × Int) × Color) × Nat × Int),
      (is.foldl (fun acc i =>
          if GRID_COLOUR ∈ grid.getD i [] then acc
          else
            ((List.range (grid.getD i []).length).foldl
                (fun l j => dict_erase l (Int.ofNat j, Int.ofNat i)) acc.1,
              acc.2.1 + 1, Int.ofNat i)) acc).2.1
        = acc.2.1 + is.countP (fun i => !decide (GRID_COLOUR ∈ grid.getD i [])) := by
  intro is
  induction is with
  | nil => intro acc; simp
  | cons i t ih =>
    intro acc
    rw [List.foldl_cons, List.countP_cons]
    by_cases hi : GRID_COLOUR ∈ grid.getD i []
    · rw [if_pos hi, ih]
      simp only [hi, decide_True, Bool.not_true, Bool.false_eq_true, if_false]
      omega
    · rw [if_neg hi, ih]
      simp only [hi, decide_False, Bool.not_false, if_true]
      omega

/-- The value `clear_rows` returns is the number of grid rows containing
no background cell. -/
theorem tetris_clear_rows_count (grid : List (List Color))
    (locked : List ((Int × Int) × Color)) :
    (tetris_clear_rows grid locked).2 = full_row_count grid := by
  show (clear_pass grid locked).2.1 = full_row_count grid
  unfold clear_pass full_row_count
  rw [clear_pass_fold_count grid (List.range grid.length).reverse (locked, 0, 20),
    List.countP_reverse, List.countP_eq_length_filter]
  simp

/-- C8: at every lock the score increases by exactly 10 times the number
of rows cleared by that lock (the count returned by `clear_rows`, which
equals the number of full rows of the freshly baked grid), so a
non-negative score stays non-negative, and the turn counter increases by
exactly 1. -/
theorem lock_step_scoring (s : GState) (p : Piece) :
    ((lock_step s p).1.score
        = s.score + 10 * ((full_row_count (bake_grid (create_grid s.locked)
            (convert_shape_format p) p.color) : Int)))
    ∧ (lock_step s p).1.turn = s.turn + 1
    ∧ (0 ≤ s.score → 0 ≤ (lock_step s p).1.score) := by
  have hcnt := tetris_clear_rows_count
    (bake_grid (create_grid s.locked) (convert_shape_format p) p.color)
    (lock_piece s.locked (convert_shape_format p) p.color)
  refine ⟨?_, rfl, ?_⟩
  · show s.score + ((tetris_clear_rows _ _).2 : Int) * 10 = _
    rw [hcnt]
    ring
  · intro h
    show 0 ≤ s.score + ((tetris_clear_rows _ _).2 : Int) * 10
    have hge : (0 : Int) ≤ ((tetris_clear_rows
        (bake_grid (create_grid s.locked) (convert_shape_format p) p.color)
        (lock_piece s.locked (convert_shape_format p) p.color)).2 : Int) * 10 := by
      positivity
    omega

/-- Witness for C8: locking a piece into the fresh game state keeps the
score non-negative. -/
theorem lock_step_scoring_witness :
    0 ≤ (lock_step start_state float_piece).1.score :=
  (lock_step_scoring start_state float_piece).2.2 (by decide)

theorem lookup_map_update (k k' : Int × Int) (v : Color) :
    ∀ (d : List ((Int × Int) × Color)),
      (d.map (fun kv => if kv.1 = k then (k, v) else kv)).lookup k'
        = if k' = k then Option.map (fun _ => v) (d.lookup k)
          else d.lookup k' := by
  intro d
  induction d with
  | nil => by_cases h : k' = k <;> simp [List.lookup, h]
  | cons a t ih =>
    obtain ⟨a1, a2⟩ := a
    simp only [List.map_cons]
    by_cases h1 : a1 = k
    · subst h1
      rw [if_pos rfl]
      by_cases h2 : k' = a1
      · subst h2
        simp [List.lookup, ih]
      · have hb : (k' == a1) = false := beq_eq_false_iff_ne.mpr h2
        simp [List.lookup, hb, ih, h2]
    · rw [if_neg (by simpa using h1)]
      by_cases h2 : k' = k
      · subst h2
        have hb : (k' == a1) = false := beq_eq_false_iff_ne.mpr (fun he => h1 he.symm)
        simp [List.lookup, hb, ih]
      · by_cases h3 : k' = a1
        · subst h3
          simp [List.lookup, ih, h2]
        · have hb : (k' == a1) = false := beq_eq_false_iff_ne.mpr h3
          simp [List.lookup, hb, ih, h2]

theorem lookup_append_single (k k' : Int × Int) (v : Color) :
    ∀ (d : List ((Int × Int) × Color)), d.lookup k = none →
      (d ++ [(k, v)]).lookup k' = if k' = k then some v else d.lookup k' := by
  intro d
  induction d with
  | nil =>
    intro _
    by_cases h : k' = k
    · subst h; simp [List.lookup]
    · have hb : (k' == k) = false := beq_eq_false_iff_ne.mpr h
      simp [List.lookup, hb, h]
  | cons a t ih =>
    intro hd
    obtain ⟨a1, a2⟩ := a
    have hk : ¬ k = a1 := by
      intro h
      subst h
      simp [List.lookup] at hd
    have hkb : (k == a1) = false := beq_eq_false_iff_ne.mpr hk
    have hdt : List.lookup k t = none := by
      simpa [List.lookup, hkb] using hd
    by_cases h3 : k' = a1
    · subst h3
      have hne : ¬ k' = k := fun he => hk he.symm
      simp [List.cons_append, List.lookup, hne]
    · have h3b : (k' == a1) = false := beq_eq_false_iff_ne.mpr h3
      simp only [List.cons_append, List.lookup, h3b]
      exact ih hdt

theorem lookup_dict_insert (d : List ((Int × Int) × Color)) (k k' : Int × Int)
    (v : Color) :
    (dict_insert d k v).lookup k' = if k' = k then some v else d.lookup k' := by
  unfold dict_insert
  rcases hl : d.lookup k with _ | w
  · simp only [Option.isSome_none, Bool.false_eq_true, if_false]
    exact lookup_append_single k k' v d hl
  · simp only [Option.isSome_some, if_true]
    rw [lookup_map_update k k' v d, hl]
    rfl

theorem lookup_lock_piece (shape_pos : List (Int × Int)) :
    ∀ (locked : List ((Int × Int) × Color)) (c : Color) (pos : Int × Int),
      (lock_piece locked shape_pos c).lookup pos
        = if pos ∈ shape_pos then some c else locked.lookup pos := by
  induction shape_pos with
  | nil => intro locked c pos; simp [lock_piece]
  | cons a t ih =>
    intro locked c pos
    show (lock_piece (dict_insert locked a c) t c).lookup pos = _
    rw [ih]
    by_cases hpt : pos ∈ t
    · simp [hpt, List.mem_cons]
    · rw [if_neg hpt, lookup_dict_insert]
      by_cases hpa : pos = a
      · simp [hpa, List.mem_cons]
      · simp [hpa, hpt, List.mem_cons]

/-- C9: locking writes the piece's colour into the locked-cell board
exactly at the cells of its current rotation mask taken at its anchor
(the cell list computed by `convert_shape_format`); every cell not
targeted keeps its previous contents. -/
theorem lock_piece_frame (locked : List ((Int × Int) × Color)) (p : Piece)
    (pos : Int × Int) :
    (lock_piece locked (convert_shape_format p) p.color).lookup pos
      = if pos ∈ convert_shape_format p then some p.color
        else locked.lookup pos :=
  lookup_lock_piece (convert_shape_format p) locked p.color pos

/-- C10: the snapshot recorded at a lock carries the score as it stood
before that lock, and the row-clear delta of that same lock is added to
the running score only afterwards — the record never reflects the line
clear its own turn produced. -/
theorem lock_step_snapshot (s : GState) (p : Piece) :
    ((lock_step s p).2.score = s.score)
    ∧ ((lock_step s p).1.score
        = (lock_step s p).2.score
          + 10 * ((full_row_count (bake_grid (create_grid s.locked)
              (convert_shape_format p) p.color) : Int))) := by
  refine ⟨rfl, ?_⟩
  have h2 : (lock_step s p).2.score = s.score := rfl
  rw [h2]
  show s.score + ((tetris_clear_rows _ _).2 : Int) * 10 = _
  rw [tetris_clear_rows_count
    (bake_grid (create_grid s.locked) (convert_shape_format p) p.color)
    (lock_piece s.locked (convert_shape_format p) p.color)]
  ring
